import Mathlib

/-
Verification of the `reshape` tool (src/reshape/__main__.py): a shallow
embedding of its two commands, `gen` (produce a content-addressed manifest
of a directory tree) and `apply` (reconcile a desired manifest against a
source tree by hardlinking), over an explicit filesystem model.

Modelling conventions:
  - A filesystem path is a list of name components.
  - The filesystem is a list of directory entries (path, node) in traversal
    order (`rglob` enumerates entries in this order), together with an inode
    table.  Hardlinks are shared inode numbers.
  - A node is a regular file (with an inode), a directory, a symlink
    (carrying `some i` when it resolves to a regular file with inode `i`,
    `none` when dangling or resolving to a non-regular file), or a device.
    Python's `Path.is_file()` follows symlinks, hence `isFileNode` accepts a
    symlink that resolves to a regular file.
  - `FileEntry.get_hash` streams a file's bytes through xxh128; the model
    records each inode's digest directly (`hexhash`), with a `readable` flag:
    an unreadable inode makes `getHash` fail with an I/O error, exactly as an
    `open`/`read` failure propagates in the source.
  - The progress line of both commands evaluates
    `bytes_hashed / total_bytes`; when the total size of the scanned files
    is zero and the loop body runs, Python raises `ZeroDivisionError`.  The
    model mirrors this with the `Err.zeroDiv` outcome in `groupPaths`.
  - `mkdir(parents=True, exist_ok=True)` creates missing ancestors top-down
    and fails when an existing component is not a directory (the ancestors
    created before the failure persist); `unlink(missing_ok=True)` succeeds
    on a missing path and fails on a directory; `hardlink_to` fails when the
    link name already exists, when its parent directory is missing, or when
    the link source does not resolve to a file.
-/

namespace Reshape

abbrev FPath := List String

/-- An inode: content digest, size in bytes, and whether its bytes can be
read (an unreadable inode models an `open`/`read` failure during
fingerprinting). -/
structure Inode where
  hexhash : String
  size : Nat
  readable : Bool
deriving DecidableEq, Repr

/-- A directory entry's node, as distinguished by `rglob` plus `stat`:
regular file, directory, symlink (with the inode of the regular file it
resolves to, if any), or other non-regular node (device etc.). -/
inductive Node where
  | file (ino : Nat)
  | dir
  | symlink (target : Option Nat)
  | device
deriving DecidableEq, Repr

/-- The filesystem: directory entries in traversal order plus the inode
table. -/
structure FS where
  dirents : List (FPath × Node)
  inodes : List (Nat × Inode)
deriving DecidableEq, Repr

/-- Look up the node recorded at a path. -/
def findEnt (fs : FS) (p : FPath) : Option Node :=
  (fs.dirents.find? (fun e => e.1 == p)).map (fun e => e.2)

/-- Look up an inode in the inode table. -/
def findIno (fs : FS) (i : Nat) : Option Inode :=
  (fs.inodes.find? (fun e => e.1 == i)).map (fun e => e.2)

/-- The inode a path resolves to after following a symlink, if the result
is a regular file (this is what `open`, `stat` and `os.link` act on). -/
def resolveIno (fs : FS) (p : FPath) : Option Nat :=
  match findEnt fs p with
  | some (Node.file i) => some i
  | some (Node.symlink t) => t
  | _ => none

/-- Python's `Path.is_file()`: true for a regular file and for a symlink
that resolves to a regular file. -/
def isFileNode : Node → Bool
  | Node.file _ => true
  | Node.symlink (some _) => true
  | _ => false

/-- Whether `p` lies strictly under directory `root`. -/
def underRootB (root p : FPath) : Bool :=
  root.isPrefixOf p && p != root

/-- `[path for path in root.rglob("**/*") if path.is_file()]`: every entry
under the root that `is_file()` accepts, in traversal order. -/
def scan (root : FPath) (fs : FS) : List FPath :=
  (fs.dirents.filter (fun e => underRootB root e.1 && isFileNode e.2)).map (fun e => e.1)

/-- `path.stat().st_size` (0 for anything that does not resolve; scanned
paths always resolve). -/
def statSize (fs : FS) (p : FPath) : Nat :=
  match resolveIno fs p with
  | some i => match findIno fs i with
    | some ind => ind.size
    | none => 0
  | none => 0

/-- `sum(path.stat().st_size for path in files)`. -/
def sumSizes (fs : FS) (ps : List FPath) : Nat :=
  (ps.map (statSize fs)).sum

/-- A run-aborting error: an I/O failure while fingerprinting a path, or
the `ZeroDivisionError` raised by the progress line when the scanned files
total zero bytes. -/
inductive Err where
  | ioError (p : FPath)
  | zeroDiv
deriving DecidableEq, Repr

/-- `FileEntry.get_hash(path)`: the digest of the file's bytes, or an I/O
error when the path cannot be opened and fully read. -/
def getHash (fs : FS) (p : FPath) : Except Err String :=
  match resolveIno fs p with
  | some i =>
    match findIno fs i with
    | some ind =>
      if ind.readable then Except.ok ind.hexhash else Except.error (Err.ioError p)
    | none => Except.error (Err.ioError p)
  | none => Except.error (Err.ioError p)

/-- Whether fingerprinting `p` succeeds with digest `h`. -/
def hashIs (fs : FS) (p : FPath) (h : String) : Bool :=
  match getHash fs p with
  | Except.ok h2 => h2 == h
  | Except.error _ => false

/-- A manifest entry `{ "path": ..., "hexhash": ... }`. -/
structure FileEntry where
  path : FPath
  hexhash : String
deriving DecidableEq, Repr

/-- `hashes[hexhash].append(path)` on a `defaultdict(list)`: append to the
existing group, or add a new group at the end (dict insertion order). -/
def insertGroup (acc : List (String × List FPath)) (h : String) (p : FPath) :
    List (String × List FPath) :=
  if acc.any (fun g => g.1 == h) then
    acc.map (fun g => if g.1 == h then (g.1, g.2 ++ [p]) else g)
  else acc ++ [(h, [p])]

/-- The hashing loop shared by `gen` and `apply`: fingerprint each scanned
path in order, grouping paths by digest.  Each iteration first computes the
digest (an unreadable file aborts the run with its I/O error), then formats
the progress line, whose `bytes_hashed / total_bytes` raises
`ZeroDivisionError` when the total size of the scanned files is zero. -/
def groupPaths (fs : FS) (total : Nat) :
    List FPath → List (String × List FPath) → Except Err (List (String × List FPath))
  | [], acc => Except.ok acc
  | p :: ps, acc =>
    match getHash fs p with
    | Except.error e => Except.error e
    | Except.ok h =>
      if total == 0 then Except.error Err.zeroDiv
      else groupPaths fs total ps (insertGroup acc h p)

/-- The `gen` command: scan the root, fingerprint and group every file, and
output a `FileEntry` for each digest held by exactly one path (groups of two
or more paths are omitted from the output, with a diagnostic on stderr). -/
def gen (root : FPath) (fs : FS) : Except Err (List FileEntry) :=
  let files := scan root fs
  let total := sumSizes fs files
  match groupPaths fs total files [] with
  | Except.error e => Except.error e
  | Except.ok gs =>
    Except.ok (gs.filterMap (fun g =>
      match g.2 with
      | [p] => some { path := p, hexhash := g.1 }
      | _ => none))

/-- One step of the dict comprehension
`{entry.hexhash: entry.path for entry in input_entries}`: insert or
overwrite the value at a key. -/
def upsertDesired (m : List (String × FPath)) (h : String) (p : FPath) :
    List (String × FPath) :=
  if m.any (fun kv => kv.1 == h) then
    m.map (fun kv => if kv.1 == h then (kv.1, p) else kv)
  else m ++ [(h, p)]

/-- `input_hashes`: the fingerprint-to-desired-path lookup `apply` builds
from the manifest read on stdin (later entries overwrite earlier ones). -/
def buildDesired (entries : List FileEntry) : List (String × FPath) :=
  entries.foldl (fun m e => upsertDesired m e.hexhash e.path) []

/-- Dictionary lookup in the desired map. -/
def lookupDesired (m : List (String × FPath)) (h : String) : Option FPath :=
  (m.find? (fun kv => kv.1 == h)).map (fun kv => kv.2)

/-- The stderr diagnostics `apply` can emit while disposing of a group. -/
inductive Diag where
  | collision (h : String) (ps : List FPath)
  | linking (source target : FPath)
  | mkdirErr (p : FPath)
  | unlinkErr (p : FPath)
  | linkErr (p target : FPath)
deriving DecidableEq, Repr

/-- Remove the directory entry at a path. -/
def eraseEnt (fs : FS) (p : FPath) : FS :=
  { fs with dirents := fs.dirents.filter (fun e => e.1 != p) }

/-- Add a directory entry at the end of the listing. -/
def addEnt (fs : FS) (p : FPath) (n : Node) : FS :=
  { fs with dirents := fs.dirents ++ [(p, n)] }

/-- The ancestors `new_path.parent.mkdir(parents=True)` visits, shortest
first: every nonempty prefix of the parent. -/
def mkdirDirs (np : FPath) : List FPath :=
  (List.range np.dropLast.length).map (fun k => np.dropLast.take (k + 1))

/-- Create each missing ancestor in turn; an existing non-directory
component aborts with failure, keeping the directories already created. -/
def mkdirSeq (fs : FS) : List FPath → FS × Bool
  | [] => (fs, true)
  | d :: ds =>
    match findEnt fs d with
    | none => mkdirSeq (addEnt fs d Node.dir) ds
    | some Node.dir => mkdirSeq fs ds
    | some _ => (fs, false)

/-- `new_path.parent.mkdir(parents=True, exist_ok=True)`. -/
def mkdirParents (fs : FS) (np : FPath) : FS × Bool :=
  mkdirSeq fs (mkdirDirs np)

/-- `new_path.unlink(missing_ok=True)`: a missing path is fine, a directory
raises, any other entry is removed. -/
def unlink (fs : FS) (p : FPath) : Option FS :=
  match findEnt fs p with
  | none => some fs
  | some Node.dir => none
  | some _ => some (eraseEnt fs p)

/-- `new_path.hardlink_to(target)`: fails when the link name exists, when
the link source does not resolve to a regular file, or when the link name's
parent directory is missing; otherwise adds a new name for the source's
inode. -/
def hardlink (fs : FS) (np target : FPath) : Option FS :=
  if (findEnt fs np).isSome then none
  else
    match resolveIno fs target with
    | none => none
    | some i =>
      if np.dropLast = [] ∨ findEnt fs np.dropLast = some Node.dir then
        some (addEnt fs np (Node.file i))
      else none

/-- The three-step link transition of one matched entry (lines 153-169 of
the source): ensure parent directories, remove any existing file at the
link name, create the hardlink; each failure is reported as a diagnostic
and abandons only this entry. -/
def linkTransition (σ : FS × List Diag) (np target : FPath) : FS × List Diag :=
  match mkdirParents σ.1 np with
  | (fs1, false) => (fs1, σ.2 ++ [Diag.mkdirErr np])
  | (fs1, true) =>
    match unlink fs1 np with
    | none => (fs1, σ.2 ++ [Diag.unlinkErr np])
    | some fs2 =>
      match hardlink fs2 np target with
      | none => (fs2, σ.2 ++ [Diag.linkErr np target])
      | some fs3 => (fs3, σ.2)

/-- Disposition of one source fingerprint group in `apply`'s main loop: skip
silently when the fingerprint is not desired, skip with a collision
diagnostic naming every path when the group holds more than one path, and
otherwise perform the link transition. -/
def processGroup (desired : List (String × FPath)) (σ : FS × List Diag)
    (g : String × List FPath) : FS × List Diag :=
  match lookupDesired desired g.1 with
  | none => σ
  | some np =>
    if 1 < g.2.length then (σ.1, σ.2 ++ [Diag.collision g.1 g.2])
    else
      match g.2 with
      | [target] => linkTransition (σ.1, σ.2 ++ [Diag.linking target np]) np target
      | _ => σ

/-- The `apply` command: build the desired lookup from the manifest, scan
and fingerprint the source root, then dispose of each fingerprint group in
observation order. -/
def apply (root : FPath) (manifest : List FileEntry) (fs : FS) :
    Except Err (FS × List Diag) :=
  let desired := buildDesired manifest
  let files := scan root fs
  let total := sumSizes fs files
  match groupPaths fs total files [] with
  | Except.error e => Except.error e
  | Except.ok gs => Except.ok (gs.foldl (processGroup desired) (fs, []))

/-- The group that `groupPaths` has accumulated for a digest (`hashes[h]`,
with the empty list for an absent key). -/
def groupFind (gs : List (String × List FPath)) (h : String) : List FPath :=
  match gs.find? (fun g => g.1 == h) with
  | some g => g.2
  | none => []

/-
Concrete filesystems used to instantiate the theorems below.
-/

/-- A root with three readable files `a`, `b`, `c` where `a` and `c` share
their digest (the spec's end-to-end example shape). -/
def fs1w : FS :=
  { dirents := [(["r"], Node.dir), (["r", "a"], Node.file 0),
                (["r", "b"], Node.file 1), (["r", "c"], Node.file 2)],
    inodes := [(0, { hexhash := "hA", size := 5, readable := true }),
               (1, { hexhash := "hB", size := 5, readable := true }),
               (2, { hexhash := "hA", size := 5, readable := true })] }

/-- The manifest `gen` prints for `fs1w`: only the non-colliding `b`. -/
def gen_out1 : List FileEntry := [{ path := ["r", "b"], hexhash := "hB" }]

/-- A root with two files sharing digest `hA`. -/
def fs2w : FS :=
  { dirents := [(["r"], Node.dir), (["r", "a"], Node.file 0), (["r", "c"], Node.file 2)],
    inodes := [(0, { hexhash := "hA", size := 5, readable := true }),
               (2, { hexhash := "hA", size := 5, readable := true })] }

/-- A desired manifest naming the digest `hA`. -/
def manifest2 : List FileEntry := [{ path := ["out", "x"], hexhash := "hA" }]

/-- A root directory containing no files at all. -/
def fs3e : FS := { dirents := [(["r"], Node.dir)], inodes := [] }

/-- A manifest with two entries sharing the digest `hD`. -/
def entries3 : List FileEntry :=
  [{ path := ["first"], hexhash := "hD" }, { path := ["second"], hexhash := "hD" }]

/-- A root holding a regular file `f` and a symlink `l` that resolves to
`f`'s inode. -/
def fs4 : FS :=
  { dirents := [(["r"], Node.dir), (["r", "f"], Node.file 0),
                (["r", "l"], Node.symlink (some 0))],
    inodes := [(0, { hexhash := "hF", size := 3, readable := true })] }

/-- A root holding exactly one readable zero-byte file. -/
def fs5 : FS :=
  { dirents := [(["r"], Node.dir), (["r", "e"], Node.file 0)],
    inodes := [(0, { hexhash := "hE", size := 0, readable := true })] }

/-- A root holding one file with digest `G`. -/
def fs6 : FS :=
  { dirents := [(["r"], Node.dir), (["r", "s"], Node.file 0)],
    inodes := [(0, { hexhash := "G", size := 1, readable := true })] }

/-- A manifest whose second entry carries digest `F`, absent from `fs6`,
while its first entry targets the same path `out` with the present digest
`G`. -/
def manifest6 : List FileEntry :=
  [{ path := ["out"], hexhash := "G" }, { path := ["out"], hexhash := "F" }]

/-- `fs6` after `apply`: a hardlink to `r/s`'s inode was created at `out`. -/
def fs6a : FS :=
  { dirents := [(["r"], Node.dir), (["r", "s"], Node.file 0), (["out"], Node.file 0)],
    inodes := [(0, { hexhash := "G", size := 1, readable := true })] }

/-- A filesystem where path `d` is a regular file, so creating directory
`d` (as a parent of `d/x`) fails. -/
def fs7a : FS :=
  { dirents := [(["d"], Node.file 0)],
    inodes := [(0, { hexhash := "x", size := 1, readable := true })] }

/-- A filesystem where the link name `t` is a directory, so `unlink` fails. -/
def fs7b : FS := { dirents := [(["t"], Node.dir)], inodes := [] }

/-- The empty filesystem: hardlinking from a missing source fails. -/
def fs7c : FS := { dirents := [], inodes := [] }

/-- A root holding one unreadable file `u`. -/
def fs8 : FS :=
  { dirents := [(["r"], Node.dir), (["r", "u"], Node.file 0)],
    inodes := [(0, { hexhash := "hU", size := 4, readable := false })] }

/-- A manifest naming `fs8`'s digest. -/
def manifest8 : List FileEntry := [{ path := ["out", "x"], hexhash := "hU" }]

/-- A root with files `s` (digest `A`) and `b` (digest `B`). -/
def fs9 : FS :=
  { dirents := [(["r"], Node.dir), (["r", "s"], Node.file 0), (["r", "b"], Node.file 1)],
    inodes := [(0, { hexhash := "A", size := 1, readable := true }),
               (1, { hexhash := "B", size := 1, readable := true })] }

/-- A desired manifest sending digest `A` to `r/t` and digest `B` to `r/s`
(both under the scanned root). -/
def manifest9 : List FileEntry :=
  [{ path := ["r", "t"], hexhash := "A" }, { path := ["r", "s"], hexhash := "B" }]

/-- `fs9` after one (fully successful) run of `apply` with `manifest9`:
`r/t` is a link to inode 0 and `r/s` was relinked to inode 1. -/
def fs9a : FS :=
  { dirents := [(["r"], Node.dir), (["r", "b"], Node.file 1),
                (["r", "t"], Node.file 0), (["r", "s"], Node.file 1)],
    inodes := [(0, { hexhash := "A", size := 1, readable := true }),
               (1, { hexhash := "B", size := 1, readable := true })] }

/-- `fs9a` after a second run of `apply` with `manifest9`: the second run
unlinks `r/t` and then fails to relink it (its link source is `r/t`
itself), so `r/t` is gone. -/
def fs9b : FS :=
  { dirents := [(["r"], Node.dir), (["r", "b"], Node.file 1), (["r", "s"], Node.file 1)],
    inodes := [(0, { hexhash := "A", size := 1, readable := true }),
               (1, { hexhash := "B", size := 1, readable := true })] }

/-- A root holding exactly one file `r/s` with digest `F`. -/
def fs10 : FS :=
  { dirents := [(["r"], Node.dir), (["r", "s"], Node.file 0)],
    inodes := [(0, { hexhash := "F", size := 1, readable := true })] }

/-
Generic helper lemmas about association lists.
-/

theorem find?_append_eq {α : Type} (l1 l2 : List α) (f : α → Bool) :
    (l1 ++ l2).find? f =
      match l1.find? f with
      | some x => some x
      | none => l2.find? f := by
  induction l1 with
  | nil => simp
  | cons a t ih =>
    by_cases h : f a = true
    · simp [List.find?_cons_of_pos _ h]
    · simp only [List.cons_append, List.find?_cons_of_neg _ h, ih]

theorem find_assoc_of_mem {α β : Type} [BEq α] [LawfulBEq α] :
    ∀ (l : List (α × β)) (a : α) (b : β), (l.map Prod.fst).Nodup → (a, b) ∈ l →
      l.find? (fun e => e.1 == a) = some (a, b) := by
  intro l a b hnd hmem
  induction l with
  | nil => cases hmem
  | cons x t ih =>
    simp only [List.map_cons, List.nodup_cons] at hnd
    rcases List.mem_cons.mp hmem with h | h
    · subst h
      exact List.find?_cons_of_pos _ (by simp)
    · have hkey : a ∈ t.map Prod.fst := by
        exact List.mem_map_of_mem Prod.fst h
      have hx : (x.1 == a) = false := by
        rcases Bool.eq_false_or_eq_true (x.1 == a) with hb | hb
        · exact absurd (eq_of_beq hb ▸ hkey) hnd.1
        · exact hb
      rw [List.find?_cons_of_neg _ (by simp [hx]), ih hnd.2 h]

theorem mem_of_find_assoc {α β : Type} [BEq α] [LawfulBEq α]
    (l : List (α × β)) (a : α) (e : α × β)
    (hf : l.find? (fun x => x.1 == a) = some e) : e ∈ l ∧ e.1 = a := by
  refine ⟨List.mem_of_find?_eq_some hf, ?_⟩
  have := List.find?_some hf
  exact eq_of_beq this

/-
Lemmas about the grouping loop shared by `gen` and `apply`.
-/

theorem insertGroup_key_preserved (h : String) (p : FPath) (g : String × List FPath) :
    (if g.1 == h then (g.1, g.2 ++ [p]) else g).1 = g.1 := by
  by_cases hg : (g.1 == h) = true <;> simp [hg]

theorem groupFind_insert_self (acc : List (String × List FPath)) (h : String) (p : FPath) :
    groupFind (insertGroup acc h p) h = groupFind acc h ++ [p] := by
  unfold insertGroup
  by_cases hacc : acc.any (fun g => g.1 == h) = true
  · simp only [hacc, if_pos]
    unfold groupFind
    rw [List.find?_map]
    have hfe : ((fun g : String × List FPath => g.1 == h) ∘
        (fun g : String × List FPath => if g.1 == h then (g.1, g.2 ++ [p]) else g)) =
        (fun g : String × List FPath => g.1 == h) := by
      funext g
      simp only [Function.comp]
      rw [insertGroup_key_preserved]
    rw [hfe]
    have hsome : ∃ x ∈ acc, (x.1 == h) = true := List.any_eq_true.mp hacc
    rcases hfs : acc.find? (fun g => g.1 == h) with _ | g0
    · rcases hsome with ⟨x, hx, hpx⟩
      have := List.find?_eq_none.mp hfs x hx
      simp [hpx] at this
    · have hg0 : (g0.1 == h) = true := by simpa using List.find?_some hfs
      have hg0e : g0.1 = h := eq_of_beq hg0
      simp [hfs, hg0e]
  · simp only [Bool.not_eq_true] at hacc
    simp only [hacc, Bool.false_eq_true, if_neg, not_false_iff]
    unfold groupFind
    rw [find?_append_eq]
    have hnone : acc.find? (fun g => g.1 == h) = none := by
      rw [List.find?_eq_none]
      intro x hx
      have := List.any_eq_false.mp hacc x hx
      simp [this]
    simp [hnone]

theorem groupFind_insert_other (acc : List (String × List FPath)) (h : String) (p : FPath)
    (h2 : String) (hne : h2 ≠ h) :
    groupFind (insertGroup acc h p) h2 = groupFind acc h2 := by
  unfold insertGroup
  by_cases hacc : acc.any (fun g => g.1 == h) = true
  · simp only [hacc, if_pos]
    unfold groupFind
    rw [List.find?_map]
    have hfe : ((fun g : String × List FPath => g.1 == h2) ∘
        (fun g : String × List FPath => if g.1 == h then (g.1, g.2 ++ [p]) else g)) =
        (fun g : String × List FPath => g.1 == h2) := by
      funext g
      simp only [Function.comp]
      rw [insertGroup_key_preserved]
    rw [hfe]
    rcases hfs : acc.find? (fun g => g.1 == h2) with _ | g0
    · simp [hfs]
    · have hg0 : (g0.1 == h2) = true := by simpa using List.find?_some hfs
      have hg0h : (g0.1 == h) = false := by
        have hg2 : g0.1 = h2 := eq_of_beq hg0
        rw [hg2]
        simp only [beq_eq_false_iff_ne, ne_eq]
        exact hne
      have hg0hn : g0.1 ≠ h := by simpa using hg0h
      simp [hfs, hg0hn]
  · simp only [Bool.not_eq_true] at hacc
    simp only [hacc, Bool.false_eq_true, if_neg, not_false_iff]
    unfold groupFind
    rw [find?_append_eq]
    rcases hfs : acc.find? (fun g => g.1 == h2) with _ | g0
    · have hhh : (h == h2) = false := by
        simp only [beq_eq_false_iff_ne, ne_eq]
        intro hcontra
        exact hne hcontra.symm
      simp [hfs, List.find?, hhh]
    · simp [hfs]

theorem insertGroup_keys_nodup (acc : List (String × List FPath)) (h : String) (p : FPath)
    (hnd : (acc.map Prod.fst).Nodup) : ((insertGroup acc h p).map Prod.fst).Nodup := by
  unfold insertGroup
  by_cases hacc : acc.any (fun g => g.1 == h) = true
  · simp only [hacc, if_pos]
    have hkeys : (acc.map (fun g => if g.1 == h then (g.1, g.2 ++ [p]) else g)).map Prod.fst =
        acc.map Prod.fst := by
      rw [List.map_map]
      apply List.map_congr_left
      intro g _
      simp only [Function.comp]
      rw [insertGroup_key_preserved]
    rw [hkeys]
    exact hnd
  · simp only [Bool.not_eq_true] at hacc
    simp only [hacc, Bool.false_eq_true, if_neg, not_false_iff]
    rw [List.map_append]
    have hnotin : h ∉ acc.map Prod.fst := by
      intro hmem
      rcases List.mem_map.mp hmem with ⟨g, hg, hgeq⟩
      have := List.any_eq_false.mp hacc g hg
      rw [hgeq] at this
      simp at this
    simp [List.nodup_append, hnd, hnotin]

theorem insertGroup_nonnil (acc : List (String × List FPath)) (h : String) (p : FPath)
    (hnn : ∀ g ∈ acc, g.2 ≠ []) : ∀ g ∈ insertGroup acc h p, g.2 ≠ [] := by
  intro g hg
  unfold insertGroup at hg
  by_cases hacc : acc.any (fun g => g.1 == h) = true
  · simp only [hacc, if_pos] at hg
    rcases List.mem_map.mp hg with ⟨g0, hg0, hgeq⟩
    by_cases hk : (g0.1 == h) = true
    · rw [← hgeq]
      simp [hk]
    · rw [← hgeq]
      simp only [hk, Bool.false_eq_true, if_neg, not_false_iff]
      exact hnn g0 hg0
  · simp only [Bool.not_eq_true] at hacc
    simp only [hacc, Bool.false_eq_true, if_neg, not_false_iff] at hg
    rcases List.mem_append.mp hg with hmem | hmem
    · exact hnn g hmem
    · rcases List.mem_singleton.mp hmem with rfl
      simp

theorem groupPaths_ok_char (fs : FS) (total : Nat) :
    ∀ (ps : List FPath) (acc gs : List (String × List FPath)),
      groupPaths fs total ps acc = Except.ok gs →
      ∀ h, groupFind gs h = groupFind acc h ++ ps.filter (fun p => hashIs fs p h) := by
  intro ps
  induction ps with
  | nil =>
    intro acc gs hok h
    simp only [groupPaths, Except.ok.injEq] at hok
    simp [← hok]
  | cons p ps ih =>
    intro acc gs hok h
    rcases hh : getHash fs p with e | h0
    · simp [groupPaths, hh] at hok
    · by_cases ht : (total == 0) = true
      · simp [groupPaths, hh, ht] at hok
      · simp only [groupPaths, hh, ht, Bool.false_eq_true, if_neg, not_false_iff] at hok
        have hrec := ih (insertGroup acc h0 p) gs hok h
        have hfp : hashIs fs p h = (h0 == h) := by
          unfold hashIs
          rw [hh]
        by_cases heq : (h0 == h) = true
        · have he : h0 = h := eq_of_beq heq
          subst he
          rw [hrec, groupFind_insert_self]
          simp [List.filter_cons, hfp]
        · have hne : h ≠ h0 := by
            intro hcontra
            rw [hcontra] at heq
            simp at heq
          rw [hrec, groupFind_insert_other acc h0 p h hne]
          have : hashIs fs p h = false := by
            rw [hfp]
            simpa using heq
          simp [List.filter_cons, this]

theorem groupPaths_ok_nodup (fs : FS) (total : Nat) :
    ∀ (ps : List FPath) (acc gs : List (String × List FPath)),
      groupPaths fs total ps acc = Except.ok gs →
      (acc.map Prod.fst).Nodup → (gs.map Prod.fst).Nodup := by
  intro ps
  induction ps with
  | nil =>
    intro acc gs hok hnd
    simp only [groupPaths, Except.ok.injEq] at hok
    rw [← hok]
    exact hnd
  | cons p ps ih =>
    intro acc gs hok hnd
    rcases hh : getHash fs p with e | h0
    · simp [groupPaths, hh] at hok
    · by_cases ht : (total == 0) = true
      · simp [groupPaths, hh, ht] at hok
      · simp only [groupPaths, hh, ht, Bool.false_eq_true, if_neg, not_false_iff] at hok
        exact ih (insertGroup acc h0 p) gs hok (insertGroup_keys_nodup acc h0 p hnd)

theorem groupPaths_ok_nonnil (fs : FS) (total : Nat) :
    ∀ (ps : List FPath) (acc gs : List (String × List FPath)),
      groupPaths fs total ps acc = Except.ok gs →
      (∀ g ∈ acc, g.2 ≠ []) → ∀ g ∈ gs, g.2 ≠ [] := by
  intro ps
  induction ps with
  | nil =>
    intro acc gs hok hnn
    simp only [groupPaths, Except.ok.injEq] at hok
    rw [← hok]
    exact hnn
  | cons p ps ih =>
    intro acc gs hok hnn
    rcases hh : getHash fs p with e | h0
    · simp [groupPaths, hh] at hok
    · by_cases ht : (total == 0) = true
      · simp [groupPaths, hh, ht] at hok
      · simp only [groupPaths, hh, ht, Bool.false_eq_true, if_neg, not_false_iff] at hok
        exact ih (insertGroup acc h0 p) gs hok (insertGroup_nonnil acc h0 p hnn)

theorem groupPaths_error_of_mem (fs : FS) (total : Nat) (p : FPath) (er : Err)
    (herr : getHash fs p = Except.error er) :
    ∀ (ps : List FPath) (acc : List (String × List FPath)), p ∈ ps →
      ∃ e, groupPaths fs total ps acc = Except.error e := by
  intro ps
  induction ps with
  | nil =>
    intro acc hmem
    cases hmem
  | cons q ps ih =>
    intro acc hmem
    rcases hq : getHash fs q with e0 | h0
    · exact ⟨e0, by simp [groupPaths, hq]⟩
    · by_cases ht : (total == 0) = true
      · exact ⟨Err.zeroDiv, by simp [groupPaths, hq, ht]⟩
      · have hpq : p ≠ q := by
          intro hcontra
          rw [hcontra, hq] at herr
          cases herr
        have hmem2 : p ∈ ps := by
          rcases List.mem_cons.mp hmem with h | h
          · exact absurd h hpq
          · exact h
        rcases ih (insertGroup acc h0 q) hmem2 with ⟨e, he⟩
        exact ⟨e, by simp [groupPaths, hq, ht, he]⟩

/-- C1: when `gen` succeeds, a fingerprint appears in its output exactly
when it is the fingerprint of exactly one scanned file under the root, and
each emitted entry pairs such a unique fingerprint with its single path;
fingerprints shared by two or more scanned files appear in no output
entry. -/
theorem gen_collision_exclusion (root : FPath) (fs : FS) (out : List FileEntry)
    (hok : gen root fs = Except.ok out) :
    (∀ h, (∃ e ∈ out, e.hexhash = h) ↔
        ((scan root fs).filter (fun p => hashIs fs p h)).length = 1) ∧
    (∀ e ∈ out, (scan root fs).filter (fun p => hashIs fs p e.hexhash) = [e.path]) := by
  rcases hgp : groupPaths fs (sumSizes fs (scan root fs)) (scan root fs) [] with e | gs
  · exfalso
    simp [gen, hgp] at hok
  · have hout : out = gs.filterMap (fun g =>
        match g.2 with
        | [p] => some { path := p, hexhash := g.1 }
        | _ => none) := by
      simp only [gen, hgp, Except.ok.injEq] at hok
      exact hok.symm
    have hchar : ∀ h2, groupFind gs h2 = (scan root fs).filter (fun p => hashIs fs p h2) := by
      intro h2
      have := groupPaths_ok_char fs (sumSizes fs (scan root fs)) (scan root fs) [] gs hgp h2
      simpa [groupFind] using this
    have hnd := groupPaths_ok_nodup fs (sumSizes fs (scan root fs)) (scan root fs) [] gs hgp
      (by simp)
    have part2 : ∀ e ∈ out, (scan root fs).filter (fun p => hashIs fs p e.hexhash) = [e.path] := by
      intro e he
      rw [hout] at he
      rcases List.mem_filterMap.mp he with ⟨g, hg, hpick⟩
      rcases g with ⟨gh, gl⟩
      rcases gl with _ | ⟨p, tl⟩
      · simp at hpick
      rcases tl with _ | ⟨q, tl2⟩
      · have he2 : e = { path := p, hexhash := gh } := by
          simp only [Option.some.injEq] at hpick
          exact hpick.symm
        have hfind : gs.find? (fun x => x.1 == gh) = some (gh, [p]) :=
          find_assoc_of_mem gs gh [p] hnd hg
        have hgf : groupFind gs gh = [p] := by simp [groupFind, hfind]
        rw [he2]
        show (scan root fs).filter (fun q2 => hashIs fs q2 gh) = [p]
        rw [← hchar gh]
        exact hgf
      · simp at hpick
    refine ⟨fun h => ⟨?_, ?_⟩, part2⟩
    · rintro ⟨e, he, heq⟩
      have := part2 e he
      rw [heq] at this
      rw [this]
      rfl
    · intro hlen
      rcases List.length_eq_one.mp hlen with ⟨p, hp⟩
      have hgf : groupFind gs h = [p] := by rw [hchar h, hp]
      rcases hf : gs.find? (fun x => x.1 == h) with _ | g0
      · simp [groupFind, hf] at hgf
      · have hmf := mem_of_find_assoc gs h g0 hf
        have hg0l : g0.2 = [p] := by
          simp only [groupFind, hf] at hgf
          exact hgf
        refine ⟨{ path := p, hexhash := h }, ?_, rfl⟩
        rw [hout]
        apply List.mem_filterMap.mpr
        refine ⟨g0, hmf.1, ?_⟩
        rcases g0 with ⟨g0h, g0l⟩
        have hkey : g0h = h := hmf.2
        subst hkey
        simp only at hg0l
        rw [hg0l]

/-
Lemmas about the desired lookup built from the manifest.
-/

theorem upsert_key_preserved (h : String) (p : FPath) (kv : String × FPath) :
    (if kv.1 == h then (kv.1, p) else kv).1 = kv.1 := by
  by_cases hg : (kv.1 == h) = true <;> simp [hg]

theorem lookup_upsert_self (m : List (String × FPath)) (h : String) (p : FPath) :
    lookupDesired (upsertDesired m h p) h = some p := by
  unfold upsertDesired
  by_cases hacc : m.any (fun kv => kv.1 == h) = true
  · simp only [hacc, if_pos]
    unfold lookupDesired
    rw [List.find?_map]
    have hfe : ((fun kv : String × FPath => kv.1 == h) ∘
        (fun kv : String × FPath => if kv.1 == h then (kv.1, p) else kv)) =
        (fun kv : String × FPath => kv.1 == h) := by
      funext kv
      simp only [Function.comp]
      rw [upsert_key_preserved]
    rw [hfe]
    rcases hfs : m.find? (fun kv => kv.1 == h) with _ | kv0
    · rcases List.any_eq_true.mp hacc with ⟨x, hx, hpx⟩
      have := List.find?_eq_none.mp hfs x hx
      simp [hpx] at this
    · have hkv : (kv0.1 == h) = true := by simpa using List.find?_some hfs
      have hkve : kv0.1 = h := eq_of_beq hkv
      simp [hfs, hkve]
  · simp only [Bool.not_eq_true] at hacc
    simp only [hacc, Bool.false_eq_true, if_neg, not_false_iff]
    unfold lookupDesired
    rw [find?_append_eq]
    have hnone : m.find? (fun kv => kv.1 == h) = none := by
      rw [List.find?_eq_none]
      intro x hx
      have := List.any_eq_false.mp hacc x hx
      simp [this]
    simp [hnone, List.find?]

theorem lookup_upsert_other (m : List (String × FPath)) (h : String) (p : FPath)
    (h2 : String) (hne : h2 ≠ h) :
    lookupDesired (upsertDesired m h p) h2 = lookupDesired m h2 := by
  unfold upsertDesired
  by_cases hacc : m.any (fun kv => kv.1 == h) = true
  · simp only [hacc, if_pos]
    unfold lookupDesired
    rw [List.find?_map]
    have hfe : ((fun kv : String × FPath => kv.1 == h2) ∘
        (fun kv : String × FPath => if kv.1 == h then (kv.1, p) else kv)) =
        (fun kv : String × FPath => kv.1 == h2) := by
      funext kv
      simp only [Function.comp]
      rw [upsert_key_preserved]
    rw [hfe]
    rcases hfs : m.find? (fun kv => kv.1 == h2) with _ | kv0
    · simp [hfs]
    · have hkv : (kv0.1 == h2) = true := by simpa using List.find?_some hfs
      have hkvn : kv0.1 ≠ h := by
        rw [eq_of_beq hkv]
        exact hne
      simp [hfs, hkvn]
  · simp only [Bool.not_eq_true] at hacc
    simp only [hacc, Bool.false_eq_true, if_neg, not_false_iff]
    unfold lookupDesired
    rw [find?_append_eq]
    rcases hfs : m.find? (fun kv => kv.1 == h2) with _ | kv0
    · have hhh : (h == h2) = false := by
        simp only [beq_eq_false_iff_ne, ne_eq]
        intro hcontra
        exact hne hcontra.symm
      simp [hfs, List.find?, hhh]
    · simp [hfs]

theorem buildD_char :
    ∀ (es : List FileEntry) (m : List (String × FPath)) (h : String),
      lookupDesired (es.foldl (fun m e => upsertDesired m e.hexhash e.path) m) h =
        match es.reverse.find? (fun e => e.hexhash == h) with
        | some e => some e.path
        | none => lookupDesired m h := by
  intro es
  induction es with
  | nil =>
    intro m h
    simp
  | cons e es ih =>
    intro m h
    simp only [List.foldl_cons, List.reverse_cons]
    rw [ih, find?_append_eq]
    rcases hf : es.reverse.find? (fun x => x.hexhash == h) with _ | e0
    · by_cases hh : (e.hexhash == h) = true
      · have heq : e.hexhash = h := eq_of_beq hh
        simp [hf, List.find?, hh, heq, lookup_upsert_self]
      · have hne : h ≠ e.hexhash := by
          intro hcontra
          rw [hcontra] at hh
          simp at hh
        have hhf : (e.hexhash == h) = false := by simpa using hh
        simp [hf, List.find?, hhf, lookup_upsert_other m e.hexhash e.path h hne]
    · simp [hf]

/-- C3: the fingerprint lookup that `apply` builds from its stdin manifest
is last-wins — it maps each fingerprint to the desired path of the last
manifest entry carrying it (the first match in the reversed entry list) —
and building it emits no diagnostic: a run over an empty source scan ends
with no diagnostics at all, duplicates included. -/
theorem apply_desired_last_wins :
    (∀ (entries : List FileEntry) (h : String),
        lookupDesired (buildDesired entries) h =
          (entries.reverse.find? (fun e => e.hexhash == h)).map FileEntry.path) ∧
    (∀ (root : FPath) (fs : FS) (entries : List FileEntry), scan root fs = [] →
        Reshape.apply root entries fs = Except.ok (fs, [])) := by
  constructor
  · intro entries h
    unfold buildDesired
    rw [buildD_char entries [] h]
    rcases hf : entries.reverse.find? (fun e => e.hexhash == h) with _ | e0
    · simp [hf, lookupDesired, List.find?]
    · simp [hf]
  · intro root fs entries hscan
    simp [Reshape.apply, hscan, groupPaths]

/-- C3 witness: with two entries sharing digest `hD`, the lookup holds the
second entry's path, and a run over a fileless root emits no diagnostics. -/
theorem apply_desired_last_wins_w :
    (lookupDesired (buildDesired entries3) "hD" =
      (entries3.reverse.find? (fun e => e.hexhash == "hD")).map FileEntry.path) ∧
    Reshape.apply ["r"] entries3 fs3e = Except.ok (fs3e, []) :=
  ⟨apply_desired_last_wins.1 entries3 "hD",
   apply_desired_last_wins.2 ["r"] fs3e entries3 (by rfl)⟩

/-- C5: `gen` can fail without any fingerprinting I/O error — on a root
whose scanned files are all zero bytes long (here: one readable empty
file), the progress line's `bytes_hashed / total_bytes` divides by zero and
aborts the run. -/
theorem gen_zero_total_fails : gen ["r"] fs5 = Except.error Err.zeroDiv := by rfl

/-- C9: `apply` is not idempotent.  On root `r` holding `s` (content `A`)
and `b` (content `B`), with the desired manifest sending `A` to `r/t` and
`B` to `r/s`, the first run completes all its link transitions and leaves
`r/t` in place, but the second run finds `A`'s single holder to be `r/t`
itself, unlinks it, fails the relink (its source is gone), and so deletes
`r/t`: the states after one and after two runs differ. -/
theorem apply_twice_differs :
    (Reshape.apply ["r"] manifest9 fs9).map Prod.fst = Except.ok fs9a ∧
    (Reshape.apply ["r"] manifest9 fs9a).map Prod.fst = Except.ok fs9b ∧
    findEnt fs9a ["r", "t"] = some (Node.file 0) ∧
    findEnt fs9b ["r", "t"] = none ∧
    fs9b ≠ fs9a :=
  ⟨by rfl, by rfl, by rfl, by rfl, by decide⟩

/-- C4 counterexample: the scan underlying `gen` and `apply` does not
exclude symlinks — `Path.is_file()` follows them, so the symlink `r/l`
(whose directory entry is not a regular file) appears in the scan. -/
theorem scan_includes_symlink_cex :
    scan ["r"] fs4 = [["r", "f"], ["r", "l"]] ∧
    findEnt fs4 ["r", "l"] = some (Node.symlink (some 0)) :=
  ⟨by rfl, by rfl⟩

/-- C4 amended: the scan returns exactly the paths under the root whose
entry is a regular file or a symlink resolving to a regular file;
directories, devices and dangling symlinks are excluded. -/
theorem scan_regular_characterization (root : FPath) (fs : FS) (p : FPath)
    (hnd : (fs.dirents.map Prod.fst).Nodup) :
    p ∈ scan root fs ↔
      (underRootB root p = true ∧ ∃ n, findEnt fs p = some n ∧ isFileNode n = true) := by
  unfold scan
  constructor
  · intro hmem
    rcases List.mem_map.mp hmem with ⟨e, he, heq⟩
    have hf := List.mem_filter.mp he
    rcases e with ⟨q, n⟩
    have hq : q = p := heq
    subst hq
    have hcond := hf.2
    simp only [Bool.and_eq_true] at hcond
    refine ⟨hcond.1, n, ?_, hcond.2⟩
    have hfind := find_assoc_of_mem fs.dirents q n hnd hf.1
    simp [findEnt, hfind]
  · rintro ⟨hur, n, hfind, hfile⟩
    rcases hfq : fs.dirents.find? (fun e => e.1 == p) with _ | e0
    · simp [findEnt, hfq] at hfind
    · have he0 : e0.2 = n := by
        simp [findEnt, hfq] at hfind
        exact hfind
      have hm := mem_of_find_assoc fs.dirents p e0 hfq
      apply List.mem_map.mpr
      refine ⟨e0, List.mem_filter.mpr ⟨hm.1, ?_⟩, hm.2⟩
      rw [hm.2, he0]
      simp [hur, hfile]

/-- C4 witness: the characterization instantiated at the symlink path of
`fs4`, which the scan includes. -/
theorem scan_regular_characterization_w :
    ["r", "l"] ∈ scan ["r"] fs4 ↔
      (underRootB ["r"] ["r", "l"] = true ∧
        ∃ n, findEnt fs4 ["r", "l"] = some n ∧ isFileNode n = true) :=
  scan_regular_characterization ["r"] fs4 ["r", "l"] (by decide)

/-- C1 witness: on a root holding `a`, `b`, `c` where `a` and `c` collide,
the digest `hB` appears in the output and is held by exactly one scanned
file. -/
theorem gen_collision_exclusion_w :
    (∃ e ∈ gen_out1, e.hexhash = "hB") ↔
      ((scan ["r"] fs1w).filter (fun p => hashIs fs1w p "hB")).length = 1 :=
  (gen_collision_exclusion ["r"] fs1w gen_out1 (by rfl)).1 "hB"

/-- C8: an I/O failure while fingerprinting a scanned file is fatal to the
whole run: the grouping loop stops at that file immediately (whatever
follows it), `gen` produces no manifest output, and `apply` performs no
reconciliation — both end in an error. -/
theorem fingerprint_error_fatal (root : FPath) (fs : FS) (manifest : List FileEntry)
    (p : FPath) (er : Err) (hmem : p ∈ scan root fs)
    (herr : getHash fs p = Except.error er) :
    (∃ e, gen root fs = Except.error e) ∧
    (∃ e, Reshape.apply root manifest fs = Except.error e) ∧
    (∀ (total : Nat) (ps : List FPath) (acc : List (String × List FPath)),
        groupPaths fs total (p :: ps) acc = Except.error er) := by
  rcases groupPaths_error_of_mem fs (sumSizes fs (scan root fs)) p er herr
    (scan root fs) [] hmem with ⟨e, he⟩
  refine ⟨⟨e, ?_⟩, ⟨e, ?_⟩, ?_⟩
  · simp [gen, he]
  · simp [Reshape.apply, he]
  · intro total ps acc
    simp [groupPaths, herr]

/-- C8 witness: on a root holding an unreadable file, `gen` aborts with an
error. -/
theorem fingerprint_error_fatal_w : ∃ e, gen ["r"] fs8 = Except.error e :=
  (fingerprint_error_fatal ["r"] fs8 manifest8 ["r", "u"] (Err.ioError ["r", "u"])
    (by decide) (by rfl)).1

/-
Lemmas about the reconciliation fold of `apply`.
-/

theorem linkTransition_diags (σ : FS × List Diag) (np target : FPath) :
    ∃ t, (linkTransition σ np target).2 = σ.2 ++ t := by
  unfold linkTransition
  rcases hm : mkdirParents σ.1 np with ⟨fs1, b⟩
  cases b
  · exact ⟨[Diag.mkdirErr np], by simp [hm]⟩
  · rcases hu : unlink fs1 np with _ | fs2
    · exact ⟨[Diag.unlinkErr np], by simp [hm, hu]⟩
    · rcases hh : hardlink fs2 np target with _ | fs3
      · exact ⟨[Diag.linkErr np target], by simp [hm, hu, hh]⟩
      · exact ⟨[], by simp [hm, hu, hh]⟩

theorem processGroup_diags (d : List (String × FPath)) (σ : FS × List Diag)
    (g : String × List FPath) : ∃ t, (processGroup d σ g).2 = σ.2 ++ t := by
  unfold processGroup
  rcases hl : lookupDesired d g.1 with _ | np
  · exact ⟨[], by simp⟩
  · by_cases hlen : 1 < g.2.length
    · exact ⟨[Diag.collision g.1 g.2], by simp [hlen]⟩
    · rcases hg2 : g.2 with _ | ⟨t0, tl⟩
      · exact ⟨[], by simp [hlen, hg2]⟩
      · rcases tl with _ | ⟨t1, tl2⟩
        · rcases linkTransition_diags (σ.1, σ.2 ++ [Diag.linking t0 np]) np t0 with ⟨t, ht⟩
          exact ⟨[Diag.linking t0 np] ++ t, by simp [hlen, hg2, ht]⟩
        · exfalso
          apply hlen
          rw [hg2]
          simp

theorem foldl_processGroup_diags (d : List (String × FPath)) :
    ∀ (l : List (String × List FPath)) (σ : FS × List Diag),
      ∃ t, (l.foldl (processGroup d) σ).2 = σ.2 ++ t := by
  intro l
  induction l with
  | nil =>
    intro σ
    exact ⟨[], by simp⟩
  | cons g l ih =>
    intro σ
    rcases processGroup_diags d σ g with ⟨t1, h1⟩
    rcases ih (processGroup d σ g) with ⟨t2, h2⟩
    exact ⟨t1 ++ t2, by simp [List.foldl_cons, h2, h1]⟩

theorem foldl_processGroup_skip (d : List (String × FPath)) :
    ∀ (l : List (String × List FPath)) (σ : FS × List Diag),
      (∀ g ∈ l, lookupDesired d g.1 = none) → l.foldl (processGroup d) σ = σ := by
  intro l
  induction l with
  | nil =>
    intro σ _
    rfl
  | cons g l ih =>
    intro σ hnone
    have hg : processGroup d σ g = σ := by
      unfold processGroup
      simp [hnone g (List.mem_cons_self g l)]
    rw [List.foldl_cons, hg]
    exact ih σ (fun g2 hg2 => hnone g2 (List.mem_cons_of_mem g hg2))

theorem foldl_processGroup_congr (d1 d2 : List (String × FPath)) :
    ∀ (l : List (String × List FPath)) (σ : FS × List Diag),
      (∀ g ∈ l, ∀ σ2, processGroup d1 σ2 g = processGroup d2 σ2 g) →
      l.foldl (processGroup d1) σ = l.foldl (processGroup d2) σ := by
  intro l
  induction l with
  | nil =>
    intro σ _
    rfl
  | cons g l ih =>
    intro σ hagree
    rw [List.foldl_cons, List.foldl_cons, hagree g (List.mem_cons_self g l) σ]
    exact ih _ (fun g2 hg2 => hagree g2 (List.mem_cons_of_mem g hg2))

theorem processGroup_lookup_congr (d1 d2 : List (String × FPath)) (g : String × List FPath)
    (hl : lookupDesired d1 g.1 = lookupDesired d2 g.1) :
    ∀ σ, processGroup d1 σ g = processGroup d2 σ g := by
  intro σ
  unfold processGroup
  rw [hl]

theorem find?_middle_false {α : Type} (l1 l2 : List α) (x : α) (f : α → Bool)
    (hx : f x = false) : (l1 ++ x :: l2).find? f = (l1 ++ l2).find? f := by
  rw [find?_append_eq, find?_append_eq]
  rcases h1 : l1.find? f with _ | y
  · simp only
    rw [List.find?_cons_of_neg _ (by simp [hx])]
  · simp

/-- C2: when the source scan groups two or more paths under one
fingerprint and that fingerprint is named by the desired manifest, `apply`
performs no link for it — the disposition step leaves the filesystem part
of the state untouched and only appends the collision diagnostic naming
every colliding source path, which appears among the run's diagnostics. -/
theorem apply_collision_blocks (root : FPath) (fs : FS) (manifest : List FileEntry)
    (gs : List (String × List FPath)) (h : String) (ps : List FPath) (q : FPath)
    (hgs : groupPaths fs (sumSizes fs (scan root fs)) (scan root fs) [] = Except.ok gs)
    (hmem : (h, ps) ∈ gs) (hlen : 2 ≤ ps.length)
    (hdes : lookupDesired (buildDesired manifest) h = some q) :
    (∃ fs1 ds, Reshape.apply root manifest fs = Except.ok (fs1, ds) ∧
        Diag.collision h ps ∈ ds) ∧
    (∀ σ, processGroup (buildDesired manifest) σ (h, ps) =
        (σ.1, σ.2 ++ [Diag.collision h ps])) := by
  have hstep : ∀ σ, processGroup (buildDesired manifest) σ (h, ps) =
      (σ.1, σ.2 ++ [Diag.collision h ps]) := by
    intro σ
    unfold processGroup
    simp only [hdes]
    have h1 : 1 < ps.length := lt_of_lt_of_le one_lt_two hlen
    simp [h1]
  refine ⟨?_, hstep⟩
  rcases List.append_of_mem hmem with ⟨l1, l2, rfl⟩
  have happly : Reshape.apply root manifest fs =
      Except.ok ((l1 ++ (h, ps) :: l2).foldl (processGroup (buildDesired manifest))
        (fs, [])) := by
    simp [Reshape.apply, hgs]
  have hsplit : (l1 ++ (h, ps) :: l2).foldl (processGroup (buildDesired manifest)) (fs, []) =
      l2.foldl (processGroup (buildDesired manifest))
        (processGroup (buildDesired manifest)
          (l1.foldl (processGroup (buildDesired manifest)) (fs, [])) (h, ps)) := by
    rw [List.foldl_append, List.foldl_cons]
  rcases foldl_processGroup_diags (buildDesired manifest) l2
      (processGroup (buildDesired manifest)
        (l1.foldl (processGroup (buildDesired manifest)) (fs, [])) (h, ps)) with ⟨t, ht⟩
  refine ⟨((l1 ++ (h, ps) :: l2).foldl (processGroup (buildDesired manifest)) (fs, [])).1,
    ((l1 ++ (h, ps) :: l2).foldl (processGroup (buildDesired manifest)) (fs, [])).2,
    by rw [happly], ?_⟩
  rw [hsplit, ht, hstep]
  simp

/-- C2 witness: with two sources sharing digest `hA` and a manifest naming
`hA`, the run succeeds and reports the collision naming both paths. -/
theorem apply_collision_blocks_w :
    ∃ fs1 ds, Reshape.apply ["r"] manifest2 fs2w = Except.ok (fs1, ds) ∧
      Diag.collision "hA" [["r", "a"], ["r", "c"]] ∈ ds :=
  (apply_collision_blocks ["r"] fs2w manifest2 [("hA", [["r", "a"], ["r", "c"]])]
    "hA" [["r", "a"], ["r", "c"]] ["out", "x"] (by rfl) (by decide) (by decide)
    (by rfl)).1

/-
Lemmas about directory creation and entry updates.
-/

theorem findEnt_addEnt_other (fs : FS) (p : FPath) (n : Node) (q : FPath) (hne : q ≠ p) :
    findEnt (addEnt fs p n) q = findEnt fs q := by
  unfold findEnt addEnt
  simp only
  rw [find?_append_eq]
  rcases hf : fs.dirents.find? (fun e => e.1 == q) with _ | e0
  · have hpq : (p == q) = false := by
      simp only [beq_eq_false_iff_ne, ne_eq]
      intro hcontra
      exact hne hcontra.symm
    simp [hf, List.find?, hpq]
  · simp [hf]

theorem findEnt_addEnt_self (fs : FS) (p : FPath) (n : Node) (hnone : findEnt fs p = none) :
    findEnt (addEnt fs p n) p = some n := by
  unfold findEnt addEnt
  simp only
  rw [find?_append_eq]
  have hf : fs.dirents.find? (fun e => e.1 == p) = none := by
    unfold findEnt at hnone
    rcases hf2 : fs.dirents.find? (fun e => e.1 == p) with _ | e0
    · exact hf2
    · rw [hf2] at hnone
      cases hnone
  simp [hf, List.find?]

theorem mkdirSeq_preserves :
    ∀ (dirs : List FPath) (fs : FS) (q : FPath), q ∉ dirs →
      findEnt (mkdirSeq fs dirs).1 q = findEnt fs q := by
  intro dirs
  induction dirs with
  | nil =>
    intro fs q _
    rfl
  | cons d ds ih =>
    intro fs q hq
    have hqd : q ≠ d := fun hc => hq (hc ▸ List.mem_cons_self d ds)
    have hqds : q ∉ ds := fun hc => hq (List.mem_cons_of_mem d hc)
    rcases hfd : findEnt fs d with _ | n
    · simp only [mkdirSeq, hfd]
      rw [ih (addEnt fs d Node.dir) q hqds, findEnt_addEnt_other fs d Node.dir q hqd]
    · cases n
      · simp [mkdirSeq, hfd]
      · simp only [mkdirSeq, hfd]
        exact ih fs q hqds
      · simp [mkdirSeq, hfd]
      · simp [mkdirSeq, hfd]

theorem mkdirSeq_success :
    ∀ (dirs : List FPath) (fs : FS),
      (∀ d ∈ dirs, findEnt fs d = none ∨ findEnt fs d = some Node.dir) →
      ∃ fs2, mkdirSeq fs dirs = (fs2, true) ∧
        (∀ q, q ∉ dirs → findEnt fs2 q = findEnt fs q) ∧
        (∀ d ∈ dirs, findEnt fs2 d = some Node.dir) := by
  intro dirs
  induction dirs with
  | nil =>
    intro fs _
    exact ⟨fs, rfl, fun q _ => rfl, fun d hd => absurd hd (List.not_mem_nil d)⟩
  | cons d ds ih =>
    intro fs hpre
    rcases hpre d (List.mem_cons_self d ds) with hnone | hdir
    · have hstep : ∀ d2 ∈ ds,
          findEnt (addEnt fs d Node.dir) d2 = none ∨
          findEnt (addEnt fs d Node.dir) d2 = some Node.dir := by
        intro d2 hd2
        by_cases hdd : d2 = d
        · right
          rw [hdd]
          exact findEnt_addEnt_self fs d Node.dir hnone
        · rw [findEnt_addEnt_other fs d Node.dir d2 hdd]
          exact hpre d2 (List.mem_cons_of_mem d hd2)
      rcases ih (addEnt fs d Node.dir) hstep with ⟨fs2, hrun, hpres, hds⟩
      refine ⟨fs2, ?_, ?_, ?_⟩
      · simp only [mkdirSeq, hnone]
        exact hrun
      · intro q hq
        have hqd : q ≠ d := fun hc => hq (hc ▸ List.mem_cons_self d ds)
        have hqds : q ∉ ds := fun hc => hq (List.mem_cons_of_mem d hc)
        rw [hpres q hqds, findEnt_addEnt_other fs d Node.dir q hqd]
      · intro d2 hd2
        by_cases hd2s : d2 ∈ ds
        · exact hds d2 hd2s
        · have hd2d : d2 = d := by
            rcases List.mem_cons.mp hd2 with h | h
            · exact h
            · exact absurd h hd2s
          rw [hpres d2 hd2s, hd2d]
          exact findEnt_addEnt_self fs d Node.dir hnone
    · have hstep : ∀ d2 ∈ ds, findEnt fs d2 = none ∨ findEnt fs d2 = some Node.dir :=
        fun d2 hd2 => hpre d2 (List.mem_cons_of_mem d hd2)
      rcases ih fs hstep with ⟨fs2, hrun, hpres, hds⟩
      refine ⟨fs2, ?_, ?_, ?_⟩
      · simp only [mkdirSeq, hdir]
        exact hrun
      · intro q hq
        exact hpres q (fun hc => hq (List.mem_cons_of_mem d hc))
      · intro d2 hd2
        by_cases hd2s : d2 ∈ ds
        · exact hds d2 hd2s
        · have hd2d : d2 = d := by
            rcases List.mem_cons.mp hd2 with h | h
            · exact h
            · exact absurd h hd2s
          rw [hpres d2 hd2s, hd2d]
          exact hdir

theorem mem_mkdirDirs_length (np d : FPath) (hd : d ∈ mkdirDirs np) :
    d.length < np.length := by
  unfold mkdirDirs at hd
  rcases List.mem_map.mp hd with ⟨k, hk, hdk⟩
  have hkr : k < np.dropLast.length := List.mem_range.mp hk
  have h1 : (np.dropLast.take (k + 1)).length ≤ np.dropLast.length := by
    rw [List.length_take]
    exact min_le_right _ _
  have h0 : 0 < np.dropLast.length := Nat.lt_of_le_of_lt (Nat.zero_le k) hkr
  have h0b : 0 < np.length := by
    rcases np with _ | ⟨a, t⟩
    · simp at h0
    · simp
  have h2 : np.dropLast.length = np.length - 1 := List.length_dropLast np
  rw [← hdk]
  omega

theorem self_not_mem_mkdirDirs (np : FPath) : np ∉ mkdirDirs np := by
  intro h
  exact absurd (mem_mkdirDirs_length np np h) (lt_irrefl _)

/-- C7: each failing step of the link transition terminates only that
entry: a mkdir failure leaves the target entry untouched and yields exactly
the mkdir diagnostic; an unlink failure yields the state after mkdir and
exactly the unlink diagnostic, running no hardlink; a hardlink failure
yields the state after unlink and exactly the hardlink diagnostic; and the
group fold always continues with the remaining groups. -/
theorem link_step_failure_isolated (fs : FS) (ds : List Diag) (np target : FPath) :
    ((mkdirParents fs np).2 = false →
        linkTransition (fs, ds) np target =
          ((mkdirParents fs np).1, ds ++ [Diag.mkdirErr np]) ∧
        findEnt (mkdirParents fs np).1 np = findEnt fs np) ∧
    (∀ fs1, mkdirParents fs np = (fs1, true) → unlink fs1 np = none →
        linkTransition (fs, ds) np target = (fs1, ds ++ [Diag.unlinkErr np])) ∧
    (∀ fs1 fs2, mkdirParents fs np = (fs1, true) → unlink fs1 np = some fs2 →
        hardlink fs2 np target = none →
        linkTransition (fs, ds) np target = (fs2, ds ++ [Diag.linkErr np target])) ∧
    (∀ (desired : List (String × FPath)) (σ : FS × List Diag)
        (gs1 gs2 : List (String × List FPath)),
        (gs1 ++ gs2).foldl (processGroup desired) σ =
          gs2.foldl (processGroup desired) (gs1.foldl (processGroup desired) σ)) := by
  refine ⟨?_, ?_, ?_, ?_⟩
  · intro hfail
    rcases hm : mkdirParents fs np with ⟨fs1, b⟩
    have hb : b = false := by
      rw [hm] at hfail
      exact hfail
    subst hb
    constructor
    · unfold linkTransition
      simp [hm]
    · have hpres := mkdirSeq_preserves (mkdirDirs np) fs np (self_not_mem_mkdirDirs np)
      unfold mkdirParents at hm
      rw [hm] at hpres
      exact hpres
  · intro fs1 hm hu
    unfold linkTransition
    simp [hm, hu]
  · intro fs1 fs2 hm hu hh
    unfold linkTransition
    simp [hm, hu, hh]
  · intro desired σ gs1 gs2
    rw [List.foldl_append]

/-- C7 witness: all three failure modes at concrete inputs — a file
blocking directory creation, a directory at the link name blocking unlink,
and a missing link source blocking the hardlink — each yielding exactly its
diagnostic and the expected state. -/
theorem link_step_failure_isolated_w :
    linkTransition (fs7a, []) ["d", "x"] ["q"] = (fs7a, [Diag.mkdirErr ["d", "x"]]) ∧
    linkTransition (fs7b, []) ["t"] ["q"] = (fs7b, [Diag.unlinkErr ["t"]]) ∧
    linkTransition (fs7c, []) ["t"] ["q"] = (fs7c, [Diag.linkErr ["t"] ["q"]]) :=
  ⟨((link_step_failure_isolated fs7a [] ["d", "x"] ["q"]).1 (by rfl)).1,
   (link_step_failure_isolated fs7b [] ["t"] ["q"]).2.1 fs7b (by rfl) (by rfl),
   (link_step_failure_isolated fs7c [] ["t"] ["q"]).2.2.1 fs7c fs7c (by rfl) (by rfl)
     (by rfl)⟩

/-- C6 counterexample: an entry whose fingerprint (`F`) does not occur in
the source can still see a file created at its path — here another manifest
entry with the present fingerprint `G` targets the same path `out`, so
`apply` does create a file at the absent-fingerprint entry's path. -/
theorem absent_entry_path_written_cex :
    ({ path := ["out"], hexhash := "F" } : FileEntry) ∈ manifest6 ∧
    (scan ["r"] fs6).all (fun p => !(hashIs fs6 p "F")) = true ∧
    findEnt fs6 ["out"] = none ∧
    (Reshape.apply ["r"] manifest6 fs6).map Prod.fst = Except.ok fs6a ∧
    findEnt fs6a ["out"] = some (Node.file 0) :=
  ⟨by decide, by rfl, by rfl, by rfl, by rfl⟩

/-- C6 amended: an entry whose fingerprint does not occur among the source
scan's fingerprints causes nothing itself — `apply` returns exactly the
same outcome (filesystem, diagnostics, and success or failure) as it does
with that entry removed from the manifest; in particular, no file is
created at its path unless some other entry independently targets it. -/
theorem nonparticipating_entry_no_effect (root : FPath) (fs : FS)
    (pre post : List FileEntry) (e : FileEntry)
    (habs : ∀ p ∈ scan root fs, hashIs fs p e.hexhash = false) :
    Reshape.apply root (pre ++ e :: post) fs = Reshape.apply root (pre ++ post) fs := by
  rcases hgp : groupPaths fs (sumSizes fs (scan root fs)) (scan root fs) [] with er | gs
  · simp [Reshape.apply, hgp]
  · simp only [Reshape.apply, hgp, Except.ok.injEq]
    apply foldl_processGroup_congr
    intro g hg σ2
    apply processGroup_lookup_congr
    have hkey : g.1 ≠ e.hexhash := by
      have hnn := groupPaths_ok_nonnil fs (sumSizes fs (scan root fs)) (scan root fs) []
        gs hgp (by simp) g hg
      have hnd := groupPaths_ok_nodup fs (sumSizes fs (scan root fs)) (scan root fs) []
        gs hgp (by simp)
      have hfind : gs.find? (fun x => x.1 == g.1) = some (g.1, g.2) :=
        find_assoc_of_mem gs g.1 g.2 hnd hg
      have hgf : groupFind gs g.1 = g.2 := by simp [groupFind, hfind]
      have hchar := groupPaths_ok_char fs (sumSizes fs (scan root fs)) (scan root fs) []
        gs hgp g.1
      rw [hgf] at hchar
      intro hcontra
      have hfe : (scan root fs).filter (fun p => hashIs fs p g.1) = [] := by
        apply List.filter_eq_nil_iff.mpr
        intro p hp
        rw [hcontra]
        simp [habs p hp]
      rw [hfe] at hchar
      exact hnn (by simpa [groupFind] using hchar)
    show lookupDesired (buildDesired (pre ++ e :: post)) g.1 =
      lookupDesired (buildDesired (pre ++ post)) g.1
    unfold buildDesired
    rw [buildD_char (pre ++ e :: post) [] g.1, buildD_char (pre ++ post) [] g.1]
    have hrev1 : (pre ++ e :: post).reverse = post.reverse ++ e :: pre.reverse := by
      simp
    have hrev2 : (pre ++ post).reverse = post.reverse ++ pre.reverse := by simp
    have hfx : (fun x : FileEntry => x.hexhash == g.1) e = false := by
      simp only [beq_eq_false_iff_ne, ne_eq]
      intro hcontra
      exact hkey hcontra.symm
    rw [hrev1, hrev2, find?_middle_false post.reverse pre.reverse e _ hfx]

/-- C6 witness: adding an entry with the absent fingerprint `F` to a
manifest leaves `apply`'s outcome on `fs6` unchanged. -/
theorem nonparticipating_entry_no_effect_w :
    Reshape.apply ["r"]
        ([] ++ ({ path := ["q"], hexhash := "F" } : FileEntry) ::
          [{ path := ["out"], hexhash := "G" }]) fs6 =
      Reshape.apply ["r"] ([] ++ [{ path := ["out"], hexhash := "G" }]) fs6 :=
  nonparticipating_entry_no_effect ["r"] fs6 [] [{ path := ["out"], hexhash := "G" }]
    { path := ["q"], hexhash := "F" } (by decide)

/-
Lemmas about unlink, hardlink and entry resolution.
-/

theorem findEnt_erase_self (fs : FS) (p : FPath) : findEnt (eraseEnt fs p) p = none := by
  unfold findEnt eraseEnt
  simp only
  have hf : (fs.dirents.filter (fun e => e.1 != p)).find? (fun e => e.1 == p) = none := by
    rw [List.find?_eq_none]
    intro x hx
    have hxf := (List.mem_filter.mp hx).2
    simp only [bne_iff_ne, ne_eq] at hxf
    simp [hxf]
  simp [hf]

theorem resolveIno_node (fs : FS) (p : FPath) (i : Nat) (hr : resolveIno fs p = some i) :
    findEnt fs p = some (Node.file i) ∨ findEnt fs p = some (Node.symlink (some i)) := by
  unfold resolveIno at hr
  rcases hf : findEnt fs p with _ | n
  · rw [hf] at hr
    cases hr
  · rw [hf] at hr
    cases n with
    | file j =>
      left
      cases hr
      rfl
    | dir => cases hr
    | symlink t =>
      right
      cases hr
      rfl
    | device => cases hr

theorem getHash_ok_resolve (fs : FS) (p : FPath) (h : String)
    (hok : getHash fs p = Except.ok h) : ∃ i, resolveIno fs p = some i := by
  unfold getHash at hok
  rcases hr : resolveIno fs p with _ | i
  · rw [hr] at hok
    cases hok
  · exact ⟨i, rfl⟩

theorem unlink_of_nondir (fs : FS) (p : FPath) (n : Node) (hf : findEnt fs p = some n)
    (hnd : n ≠ Node.dir) : unlink fs p = some (eraseEnt fs p) := by
  unfold unlink
  rw [hf]
  cases n
  · rfl
  · exact absurd rfl hnd
  · rfl
  · rfl

theorem hardlink_self_missing (fs : FS) (p : FPath) (hf : findEnt fs p = none) :
    hardlink fs p p = none := by
  unfold hardlink
  simp [hf, resolveIno]

/-- C10: when the desired manifest is exactly one entry mapping fingerprint
`F` to the single source path `S` that holds `F`, `apply` first unlinks `S`
(destroying the content's only name) and the hardlink step then fails
because its source is gone: the run completes normally, reports the failure
only as a per-entry diagnostic, and afterwards no file exists at `S`. -/
theorem apply_self_link_removes_file (root : FPath) (fs : FS) (S : FPath) (F : String)
    (gs : List (String × List FPath))
    (hgs : groupPaths fs (sumSizes fs (scan root fs)) (scan root fs) [] = Except.ok gs)
    (hmem : (F, [S]) ∈ gs)
    (hdirs : ∀ d ∈ mkdirDirs S, findEnt fs d = none ∨ findEnt fs d = some Node.dir) :
    ∃ fs1 ds, Reshape.apply root [{ path := S, hexhash := F }] fs = Except.ok (fs1, ds) ∧
      findEnt fs1 S = none ∧ Diag.linkErr S S ∈ ds := by
  have hdes : buildDesired [{ path := S, hexhash := F }] = [(F, S)] := by
    unfold buildDesired upsertDesired
    simp
  have hlookF : lookupDesired [(F, S)] F = some S := by
    simp [lookupDesired, List.find?]
  have hlookNe : ∀ h2, h2 ≠ F → lookupDesired [(F, S)] h2 = none := by
    intro h2 hne
    have hFf : (F == h2) = false := by
      simp only [beq_eq_false_iff_ne, ne_eq]
      intro hcontra
      exact hne hcontra.symm
    simp [lookupDesired, List.find?, hFf]
  have hnd := groupPaths_ok_nodup fs (sumSizes fs (scan root fs)) (scan root fs) [] gs hgs
    (by simp)
  have hfind : gs.find? (fun x => x.1 == F) = some (F, [S]) :=
    find_assoc_of_mem gs F [S] hnd hmem
  have hgf : groupFind gs F = [S] := by simp [groupFind, hfind]
  have hchar := groupPaths_ok_char fs (sumSizes fs (scan root fs)) (scan root fs) [] gs hgs F
  rw [hgf] at hchar
  have hSfilter : (scan root fs).filter (fun p => hashIs fs p F) = [S] := by
    simpa [groupFind] using hchar.symm
  have hSmem : S ∈ (scan root fs).filter (fun p => hashIs fs p F) := by
    rw [hSfilter]
    simp
  have hShash : hashIs fs S F = true := (List.mem_filter.mp hSmem).2
  have hash_ok : ∃ i, resolveIno fs S = some i := by
    unfold hashIs at hShash
    rcases hgh : getHash fs S with e | h0
    · rw [hgh] at hShash
      cases hShash
    · exact getHash_ok_resolve fs S h0 hgh
  rcases hash_ok with ⟨i, hri⟩
  have hnode := resolveIno_node fs S i hri
  rcases List.append_of_mem hmem with ⟨l1, l2, rfl⟩
  have hndk : (l1.map Prod.fst).Nodup ∧ ((F, [S]) :: l2 |>.map Prod.fst).Nodup ∧
      (l1.map Prod.fst).Disjoint (((F, [S]) :: l2).map Prod.fst) := by
    rw [List.map_append] at hnd
    exact List.nodup_append.mp hnd
  have hF2 : ∀ g ∈ l2, g.1 ≠ F := by
    intro g hg hcontra
    have hm2 : F ∈ l2.map Prod.fst := hcontra ▸ List.mem_map_of_mem Prod.fst hg
    have hcons : (F :: l2.map Prod.fst).Nodup := by
      have h21 := hndk.2.1
      rwa [List.map_cons] at h21
    exact (List.nodup_cons.mp hcons).1 hm2
  have hF1 : ∀ g ∈ l1, g.1 ≠ F := by
    intro g hg hcontra
    have hm1 : F ∈ l1.map Prod.fst := hcontra ▸ List.mem_map_of_mem Prod.fst hg
    exact hndk.2.2 hm1 (by simp)
  have happly : Reshape.apply root [{ path := S, hexhash := F }] fs =
      Except.ok ((l1 ++ (F, [S]) :: l2).foldl
        (processGroup (buildDesired [{ path := S, hexhash := F }])) (fs, [])) := by
    simp [Reshape.apply, hgs]
  rw [hdes] at happly
  have hskip1 : l1.foldl (processGroup [(F, S)]) (fs, []) = (fs, []) :=
    foldl_processGroup_skip _ l1 _ (fun g hg => hlookNe g.1 (hF1 g hg))
  rcases mkdirSeq_success (mkdirDirs S) fs hdirs with ⟨fsm, hmrun, hmpres, _⟩
  have hmk : mkdirParents fs S = (fsm, true) := by
    unfold mkdirParents
    exact hmrun
  have hfsmS : findEnt fsm S = findEnt fs S := hmpres S (self_not_mem_mkdirDirs S)
  have hunl : unlink fsm S = some (eraseEnt fsm S) := by
    rcases hnode with hcase | hcase
    · exact unlink_of_nondir fsm S (Node.file i) (hfsmS.trans hcase) (by simp)
    · exact unlink_of_nondir fsm S (Node.symlink (some i)) (hfsmS.trans hcase) (by simp)
  have hhl : hardlink (eraseEnt fsm S) S S = none :=
    hardlink_self_missing _ S (findEnt_erase_self fsm S)
  have hmid : processGroup [(F, S)] (fs, []) (F, [S]) =
      (eraseEnt fsm S, [Diag.linking S S, Diag.linkErr S S]) := by
    unfold processGroup
    simp only [hlookF]
    unfold linkTransition
    simp [hmk, hunl, hhl]
  have hskip2 : l2.foldl (processGroup [(F, S)])
      (eraseEnt fsm S, [Diag.linking S S, Diag.linkErr S S]) =
      (eraseEnt fsm S, [Diag.linking S S, Diag.linkErr S S]) :=
    foldl_processGroup_skip _ l2 _ (fun g hg => hlookNe g.1 (hF2 g hg))
  refine ⟨eraseEnt fsm S, [Diag.linking S S, Diag.linkErr S S], ?_,
    findEnt_erase_self fsm S, by simp⟩
  rw [happly, List.foldl_append, List.foldl_cons, hskip1, hmid, hskip2]

/-- C10 witness: on a root holding exactly `r/s` (digest `F`) with the
manifest mapping `F` back to `r/s`, the run succeeds, `r/s` is gone, and
the hardlink failure is reported. -/
theorem apply_self_link_removes_file_w :
    ∃ fs1 ds, Reshape.apply ["r"] [{ path := ["r", "s"], hexhash := "F" }] fs10 =
        Except.ok (fs1, ds) ∧
      findEnt fs1 ["r", "s"] = none ∧ Diag.linkErr ["r", "s"] ["r", "s"] ∈ ds :=
  apply_self_link_removes_file ["r"] fs10 ["r", "s"] "F" [("F", [["r", "s"]])]
    (by rfl) (by decide) (by decide)

end Reshape
